/-
Verification of the DDPM training/sampling script (train.py).

The numeric tensor computations are embedded in exact arithmetic: scalar
tensor entries become rationals (ℚ), batches of images become lists of
functions from a pixel-index type into ℚ, and square roots appearing in
derived schedule quantities are expressed with Real.sqrt applied to the
exact rational core values.  `torch.cumsum(log α).exp()` is embedded as the
running product of the α values, which is its exact-arithmetic meaning for
positive α.
-/
import Mathlib

set_option autoImplicit false
set_option linter.unusedVariables false

/-! ### Noise schedule (ddpm_schedules in train.py)

`beta_t = (beta2 - beta1) * torch.arange(0, T + 1) / T + beta1`
`alpha_t = 1 - beta_t`
`alphabar_t = torch.cumsum(torch.log(alpha_t), dim=0).exp()` -/

/-- The input check of ddpm_schedules: `assert beta1 < beta2 < 1.0`. -/
def ddpm_schedules_valid (beta1 beta2 : ℚ) : Prop :=
  beta1 < beta2 ∧ beta2 < 1

instance (beta1 beta2 : ℚ) : Decidable (ddpm_schedules_valid beta1 beta2) := by
  unfold ddpm_schedules_valid; infer_instance

/-- Linear beta schedule, index t ranging over 0..T. -/
def beta_t (beta1 beta2 : ℚ) (T t : ℕ) : ℚ :=
  (beta2 - beta1) * (t : ℚ) / (T : ℚ) + beta1

def alpha_t (beta1 beta2 : ℚ) (T t : ℕ) : ℚ :=
  1 - beta_t beta1 beta2 T t

/-- Cumulative product of alpha over indices 0..t (exact meaning of
cumsum-of-logs followed by exp). -/
def alphabar_t (beta1 beta2 : ℚ) (T t : ℕ) : ℚ :=
  ∏ i in Finset.range (t + 1), alpha_t beta1 beta2 T i

/-! ### The DDPM wrapper (class DDPM in train.py)

Schedule buffers registered in __init__ are carried as sequences indexed
by timestep; the wrapped network maps a batch of images and a batch of
normalized timesteps to a batch of images. -/

structure DDPM (I : Type) where
  nn_model : List (I → ℚ) → List ℚ → List (I → ℚ)
  alpha_t : ℕ → ℚ
  oneover_sqrta : ℕ → ℚ
  sqrt_beta_t : ℕ → ℚ
  alphabar_t : ℕ → ℚ
  sqrtab : ℕ → ℚ
  sqrtmab : ℕ → ℚ
  mab_over_sqrtmab : ℕ → ℚ
  n_T : ℕ
  drop_prob : ℚ

def zeroImage {I : Type} : I → ℚ := fun _ => 0

def zipWith3 {α β γ δ : Type} (f : α → β → γ → δ) : List α → List β → List γ → List δ
  | a :: as, b :: bs, c :: cs => f a b c :: zipWith3 f as bs cs
  | _, _, _ => []

/-! ### Training loss (DDPM.forward)

The random draws `_ts` and `noise` are passed in explicitly. -/

/-- `x_t = sqrtab[_ts] * x + sqrtmab[_ts] * noise`, per sample. -/
def corrupted {I : Type} (M : DDPM I) (x noise : List (I → ℚ)) (ts : List ℕ) :
    List (I → ℚ) :=
  zipWith3 (fun x0 e t => fun j => M.sqrtab t * x0 j + M.sqrtmab t * e j) x noise ts

/-- nn.MSELoss (mean reduction) over a batch of images. -/
def mseLossList {I : Type} [Fintype I] (a b : List (I → ℚ)) : ℚ :=
  (List.zipWith (fun u v => ∑ j, (u j - v j) ^ 2) a b).sum
    / ((a.length : ℚ) * (Fintype.card I : ℚ))

/-- DDPM.forward: corrupt the batch, query the network at (x_t, t/n_T),
return the MSE against the drawn noise. -/
def ddpm_forward {I : Type} [Fintype I] (M : DDPM I) (x noise : List (I → ℚ))
    (ts : List ℕ) : ℚ :=
  mseLossList noise
    (M.nn_model (corrupted M x noise ts) (ts.map (fun t => (t : ℚ) / (M.n_T : ℚ))))

/-! ### Sampling (DDPM.sample) -/

/-- Condition under which the loop body appends a snapshot:
`if i%20==0 or i==self.n_T or i<8`. -/
def snapshot_taken (n_T i : ℕ) : Bool :=
  i % 20 == 0 || i == n_T || decide (i < 8)

/-- One reverse-diffusion update at timestep i: double the batch, query the
network at (x, i/n_T), keep the first n rows, and apply
`oneover_sqrta[i] * (x - eps * mab_over_sqrtmab[i]) + sqrt_beta_t[i] * z`. -/
def ddpm_step {I : Type} (M : DDPM I) (n i : ℕ) (z : List (I → ℚ))
    (x : List (I → ℚ)) : List (I → ℚ) :=
  let x2 := x ++ x
  let t2 := List.replicate (2 * n) ((i : ℚ) / (M.n_T : ℚ))
  let eps := (M.nn_model x2 t2).take n
  let xk := x2.take n
  zipWith3
    (fun a e w => fun j =>
      M.oneover_sqrta i * (a j - e j * M.mab_over_sqrtmab i) + M.sqrt_beta_t i * w j)
    xk eps z

/-- The loop body including the choice of z:
`z = torch.randn(n_sample, *size) if i > 1 else 0`. -/
def ddpm_step_full {I : Type} (M : DDPM I) (n : ℕ) (z : ℕ → List (I → ℚ))
    (i : ℕ) (x : List (I → ℚ)) : List (I → ℚ) :=
  ddpm_step M n i (if 1 < i then z i else List.replicate n zeroImage) x

/-- The sampling loop over an explicit list of timesteps, returning the
final batch and the ordered snapshot list. -/
def ddpm_loop {I : Type} (M : DDPM I) (n : ℕ) (z : ℕ → List (I → ℚ)) :
    List ℕ → List (I → ℚ) → List (I → ℚ) × List (List (I → ℚ))
  | [], x => (x, [])
  | i :: rest, x =>
      let x1 := ddpm_step_full M n z i x
      let r := ddpm_loop M n z rest x1
      (r.1, (if snapshot_taken M.n_T i then [x1] else []) ++ r.2)

/-- `range(self.n_T, 0, -1)`: the list [T, T-1, ..., 1]. -/
def desc_range (T : ℕ) : List ℕ :=
  (List.range T).reverse.map (· + 1)

/-- DDPM.sample with the initial draw x0 and the per-step draws z given
explicitly. -/
def ddpm_sample {I : Type} (M : DDPM I) (n : ℕ) (x0 : List (I → ℚ))
    (z : ℕ → List (I → ℚ)) : List (I → ℚ) × List (List (I → ℚ)) :=
  ddpm_loop M n z (desc_range M.n_T) x0

/-- The per-timestep post-update states of the sampling loop, in visiting
order, paired with their timestep. -/
def loop_states {I : Type} (M : DDPM I) (n : ℕ) (z : ℕ → List (I → ℚ)) :
    List ℕ → List (I → ℚ) → List (ℕ × List (I → ℚ))
  | [], _ => []
  | i :: rest, x =>
      let x1 := ddpm_step_full M n z i x
      (i, x1) :: loop_states M n z rest x1

/-! ### ResidualConvBlock.forward

Elementwise, the block computes with its two conv sub-stacks conv1 and
conv2 (modelled as arbitrary maps); `out / 1.414` divides by the literal
constant 1.414. -/

def residualConvBlock_forward {K : Type} [Field K] (is_res same_channels : Bool)
    (conv1 conv2 : K → K) (x : K) : K :=
  if is_res then
    (if same_channels then x + conv2 (conv1 x) else conv1 x + conv2 (conv1 x)) / 1.414
  else
    conv2 (conv1 x)

/-! ### Shape-level model of the Unet (classes ResidualConvBlock, UnetDown,
UnetUp, EmbedFC, Unet)

A tensor shape is (batch, channels, height, width); each layer either
rejects a mismatched input shape (none) or returns the output shape. -/

abbrev Shape := ℕ × ℕ × ℕ × ℕ

/-- nn.Conv2d(cin, cout, k, s, p) output shape. -/
def conv2d_shape (cin cout k s p : ℕ) : Shape → Option Shape
  | (n, c, h, w) =>
    if c = cin ∧ k ≤ h + 2 * p ∧ k ≤ w + 2 * p then
      some (n, cout, (h + 2 * p - k) / s + 1, (w + 2 * p - k) / s + 1)
    else none

/-- nn.BatchNorm2d(c0): shape-preserving, channel count must match. -/
def batchnorm2d_shape (c0 : ℕ) : Shape → Option Shape
  | (n, c, h, w) => if c = c0 then some (n, c, h, w) else none

/-- nn.GroupNorm(g, c0): shape-preserving, channels must match and divide. -/
def groupnorm_shape (g c0 : ℕ) : Shape → Option Shape
  | (n, c, h, w) => if c = c0 ∧ c % g = 0 then some (n, c, h, w) else none

/-- nn.MaxPool2d(k) (stride = k) output shape. -/
def maxpool2d_shape (k : ℕ) : Shape → Option Shape
  | (n, c, h, w) =>
    if 0 < k ∧ k ≤ h ∧ k ≤ w then some (n, c, (h - k) / k + 1, (w - k) / k + 1)
    else none

/-- nn.AvgPool2d(k) (stride = k) output shape. -/
def avgpool2d_shape (k : ℕ) : Shape → Option Shape
  | (n, c, h, w) =>
    if 0 < k ∧ k ≤ h ∧ k ≤ w then some (n, c, (h - k) / k + 1, (w - k) / k + 1)
    else none

/-- nn.ConvTranspose2d(cin, cout, k, s) output shape. -/
def convtranspose2d_shape (cin cout k s : ℕ) : Shape → Option Shape
  | (n, c, h, w) =>
    if c = cin ∧ 0 < h ∧ 0 < w then
      some (n, cout, (h - 1) * s + k, (w - 1) * s + k)
    else none

/-- torch.cat along dim 1. -/
def cat_shape : Shape → Shape → Option Shape
  | (n1, c1, h1, w1), (n2, c2, h2, w2) =>
    if n1 = n2 ∧ h1 = h2 ∧ w1 = w2 then some (n1, c1 + c2, h1, w1) else none

/-- Elementwise tensor addition: shapes must agree exactly. -/
def add_shape (a b : Shape) : Option Shape :=
  if a = b then some a else none

/-- Broadcast addition of a (n, c, 1, 1) embedding onto a (n, c, h, w)
feature map. -/
def addB_shape : Shape → Shape → Option Shape
  | (n, c, h, w), (n2, c2, h2, w2) =>
    if n2 = n ∧ c2 = c ∧ h2 = 1 ∧ w2 = 1 then some (n, c, h, w) else none

/-- ResidualConvBlock at the shape level: conv1 then conv2 (each
Conv2d(·,·,3,1,1) + BatchNorm + GELU), with the residual addition when
is_res is set. -/
def rcb_shape (cin cout : ℕ) (is_res : Bool) (s : Shape) : Option Shape :=
  (conv2d_shape cin cout 3 1 1 s).bind fun s1 =>
  (batchnorm2d_shape cout s1).bind fun s1 =>
  (conv2d_shape cout cout 3 1 1 s1).bind fun s2 =>
  (batchnorm2d_shape cout s2).bind fun s2 =>
  if is_res then (if cin = cout then add_shape s s2 else add_shape s1 s2)
  else some s2

/-- UnetDown: ResidualConvBlock then MaxPool2d(2). -/
def unetdown_shape (cin cout : ℕ) (s : Shape) : Option Shape :=
  (rcb_shape cin cout false s).bind (maxpool2d_shape 2)

/-- UnetUp: cat with the skip, ConvTranspose2d(cin, cout, 2, 2), then two
residual blocks. -/
def unetup_shape (cin cout : ℕ) (s skip : Shape) : Option Shape :=
  (cat_shape s skip).bind fun sc =>
  (convtranspose2d_shape cin cout 2 2 sc).bind fun s1 =>
  (rcb_shape cout cout false s1).bind (rcb_shape cout cout false)

/-- EmbedFC(1, emb) applied to a timestep batch of m scalars, after the
view(-1, emb, 1, 1) reshape in Unet.forward. -/
def embedfc_shape (emb m : ℕ) : Shape := (m, emb, 1, 1)

/-- Unet.forward at the shape level, for Unet(in_ch, f), on an input of
shape x with a timestep batch of m scalars. -/
def unet_forward_shape (in_ch f : ℕ) (x : Shape) (m : ℕ) : Option Shape :=
  (rcb_shape in_ch f true x).bind fun x1 =>
  (unetdown_shape f f x1).bind fun d1 =>
  (unetdown_shape f (2 * f) d1).bind fun d2 =>
  (avgpool2d_shape 7 d2).bind fun hv =>
  ((convtranspose2d_shape (2 * f) (2 * f) 7 7 hv).bind
      (groupnorm_shape 8 (2 * f))).bind fun u1 =>
  (addB_shape u1 (embedfc_shape (2 * f) m)).bind fun a1 =>
  (unetup_shape (4 * f) f a1 d2).bind fun u2 =>
  (addB_shape u2 (embedfc_shape f m)).bind fun a2 =>
  (unetup_shape (2 * f) f a2 d1).bind fun u3 =>
  (cat_shape u3 x1).bind fun cfin =>
  ((conv2d_shape (2 * f) f 3 1 1 cfin).bind (groupnorm_shape 8 f)).bind fun o1 =>
  conv2d_shape f in_ch 3 1 1 o1

/-- A small concrete DDPM instance (identity network, T = 600 as in
train_mnist) used to instantiate the universally quantified theorems. -/
def M0 : DDPM Unit :=
  { nn_model := fun xs _ => xs
    alpha_t := fun _ => 0
    oneover_sqrta := fun _ => 0
    sqrt_beta_t := fun _ => 0
    alphabar_t := fun _ => 0
    sqrtab := fun _ => 0
    sqrtmab := fun _ => 0
    mab_over_sqrtmab := fun _ => 0
    n_T := 600
    drop_prob := 1 / 10 }

lemma rcb_init_shape (N : ℕ) :
    rcb_shape 1 256 true (N, 1, 28, 28) = some (N, 256, 28, 28) := by
  norm_num [rcb_shape, conv2d_shape, batchnorm2d_shape, add_shape]

lemma down1_shape (N : ℕ) :
    unetdown_shape 256 256 (N, 256, 28, 28) = some (N, 256, 14, 14) := by
  norm_num [unetdown_shape, rcb_shape, conv2d_shape, batchnorm2d_shape,
    maxpool2d_shape]

lemma down2_shape (N : ℕ) :
    unetdown_shape 256 512 (N, 256, 14, 14) = some (N, 512, 7, 7) := by
  norm_num [unetdown_shape, rcb_shape, conv2d_shape, batchnorm2d_shape,
    maxpool2d_shape]

lemma to_vec_shape (N : ℕ) :
    avgpool2d_shape 7 (N, 512, 7, 7) = some (N, 512, 1, 1) := by
  norm_num [avgpool2d_shape]

lemma up0_shape (N : ℕ) :
    (convtranspose2d_shape 512 512 7 7 (N, 512, 1, 1)).bind
      (groupnorm_shape 8 512) = some (N, 512, 7, 7) := by
  norm_num [convtranspose2d_shape, groupnorm_shape]

lemma addB1_shape (N : ℕ) :
    addB_shape (N, 512, 7, 7) (N, 512, 1, 1) = some (N, 512, 7, 7) := by
  norm_num [addB_shape]

lemma up1_shape (N : ℕ) :
    unetup_shape 1024 256 (N, 512, 7, 7) (N, 512, 7, 7) = some (N, 256, 14, 14) := by
  norm_num [unetup_shape, cat_shape, convtranspose2d_shape, rcb_shape,
    conv2d_shape, batchnorm2d_shape]

lemma addB2_shape (N : ℕ) :
    addB_shape (N, 256, 14, 14) (N, 256, 1, 1) = some (N, 256, 14, 14) := by
  norm_num [addB_shape]

lemma up2_shape (N : ℕ) :
    unetup_shape 512 256 (N, 256, 14, 14) (N, 256, 14, 14) = some (N, 256, 28, 28) := by
  norm_num [unetup_shape, cat_shape, convtranspose2d_shape, rcb_shape,
    conv2d_shape, batchnorm2d_shape]

lemma cat_out_shape (N : ℕ) :
    cat_shape (N, 256, 28, 28) (N, 256, 28, 28) = some (N, 512, 28, 28) := by
  norm_num [cat_shape]

lemma out1_shape (N : ℕ) :
    (conv2d_shape 512 256 3 1 1 (N, 512, 28, 28)).bind (groupnorm_shape 8 256)
      = some (N, 256, 28, 28) := by
  norm_num [conv2d_shape, groupnorm_shape]

lemma out2_shape (N : ℕ) :
    conv2d_shape 256 1 3 1 1 (N, 256, 28, 28) = some (N, 1, 28, 28) := by
  norm_num [conv2d_shape]

/-- C8: for every batch size N, the Unet forward pass (with the program's
in_channels = 1, n_feat = 256) on a (N, 1, 28, 28) input with a matching
timestep batch returns a tensor of shape (N, 1, 28, 28). -/
theorem unet_preserves_shape (N : ℕ) :
    unet_forward_shape 1 256 (N, 1, 28, 28) N = some (N, 1, 28, 28) := by
  rw [unet_forward_shape]
  simp only [embedfc_shape, show (2 * 256 : ℕ) = 512 from rfl,
    show (4 * 256 : ℕ) = 1024 from rfl]
  rw [rcb_init_shape]
  simp only [Option.some_bind]
  rw [down1_shape]
  simp only [Option.some_bind]
  rw [down2_shape]
  simp only [Option.some_bind]
  rw [to_vec_shape]
  simp only [Option.some_bind]
  rw [up0_shape]
  simp only [Option.some_bind]
  rw [addB1_shape]
  simp only [Option.some_bind]
  rw [up1_shape]
  simp only [Option.some_bind]
  rw [addB2_shape]
  simp only [Option.some_bind]
  rw [up2_shape]
  simp only [Option.some_bind]
  rw [cat_out_shape]
  simp only [Option.some_bind]
  rw [out1_shape]
  simp only [Option.some_bind]
  rw [out2_shape]

/-- C5 (amended): with is_res enabled and equal channel counts, the residual
block forward output equals (input + conv2 (conv1 input)) divided by the
literal constant 1.414 (an approximation of √2, but not exactly √2). -/
theorem residual_forward_eq {K : Type} [Field K] (conv1 conv2 : K → K) (x : K) :
    residualConvBlock_forward true true conv1 conv2 x = (x + conv2 (conv1 x)) / 1.414 := by
  simp [residualConvBlock_forward]

/-- C5 counterexample: at the concrete input x = 1 with identity conv
sub-stacks, the block output (1 + 1) / 1.414 differs from (1 + 1) / √2,
because √2 is irrational while 1.414 is rational. -/
theorem residual_not_sqrt2 :
    residualConvBlock_forward true true (id : ℝ → ℝ) id 1 ≠ (1 + id (id 1)) / Real.sqrt 2 := by
  intro h
  simp only [residualConvBlock_forward, if_true, id] at h
  have hs : (0 : ℝ) < Real.sqrt 2 := Real.sqrt_pos.mpr (by norm_num)
  have h14 : (1.414 : ℝ) ≠ 0 := by norm_num
  rw [div_eq_div_iff h14 hs.ne.symm] at h
  have hq : Real.sqrt 2 = ((707 / 500 : ℚ) : ℝ) := by
    push_cast
    nlinarith [h]
  exact irrational_sqrt_two ⟨707 / 500, hq.symm⟩

lemma beta_t_bounds (beta1 beta2 : ℚ) (T i : ℕ) (h2 : beta1 < beta2)
    (hT : 0 < T) (hi : i ≤ T) :
    beta1 ≤ beta_t beta1 beta2 T i ∧ beta_t beta1 beta2 T i ≤ beta2 := by
  have hT' : (0 : ℚ) < (T : ℚ) := by exact_mod_cast hT
  have hi' : ((i : ℚ)) ≤ (T : ℚ) := by exact_mod_cast hi
  have hi0 : (0 : ℚ) ≤ (i : ℚ) := by positivity
  have hc : (0 : ℚ) < beta2 - beta1 := by linarith
  unfold beta_t
  constructor
  · have h0 : (0 : ℚ) ≤ (beta2 - beta1) * (i : ℚ) / (T : ℚ) := by positivity
    linarith
  · have h1 : (beta2 - beta1) * (i : ℚ) / (T : ℚ) ≤ beta2 - beta1 := by
      rw [div_le_iff₀ hT']
      nlinarith
    linarith

lemma alpha_t_bounds (beta1 beta2 : ℚ) (T i : ℕ) (h1 : 0 < beta1)
    (h2 : beta1 < beta2) (h3 : beta2 < 1) (hT : 0 < T) (hi : i ≤ T) :
    0 < alpha_t beta1 beta2 T i ∧ alpha_t beta1 beta2 T i < 1 := by
  obtain ⟨hl, hr⟩ := beta_t_bounds beta1 beta2 T i h2 hT hi
  unfold alpha_t
  constructor <;> linarith

lemma alphabar_t_pos (beta1 beta2 : ℚ) (T t : ℕ) (h1 : 0 < beta1)
    (h2 : beta1 < beta2) (h3 : beta2 < 1) (hT : 0 < T) (ht : t ≤ T) :
    0 < alphabar_t beta1 beta2 T t := by
  unfold alphabar_t
  refine Finset.prod_pos fun i hi => ?_
  have hiT : i ≤ T := le_trans (Nat.lt_succ_iff.mp (Finset.mem_range.mp hi)) ht
  exact (alpha_t_bounds beta1 beta2 T i h1 h2 h3 hT hiT).1

lemma alphabar_t_le_one (beta1 beta2 : ℚ) (T t : ℕ) (h1 : 0 < beta1)
    (h2 : beta1 < beta2) (h3 : beta2 < 1) (hT : 0 < T) (ht : t ≤ T) :
    alphabar_t beta1 beta2 T t ≤ 1 := by
  unfold alphabar_t
  refine Finset.prod_le_one (fun i hi => ?_) (fun i hi => ?_)
  · have hiT : i ≤ T := le_trans (Nat.lt_succ_iff.mp (Finset.mem_range.mp hi)) ht
    exact (alpha_t_bounds beta1 beta2 T i h1 h2 h3 hT hiT).1.le
  · have hiT : i ≤ T := le_trans (Nat.lt_succ_iff.mp (Finset.mem_range.mp hi)) ht
    exact (alpha_t_bounds beta1 beta2 T i h1 h2 h3 hT hiT).2.le

lemma sqrt_sum_of_unit_interval (q : ℚ) (h0 : 0 ≤ q) (h1 : q ≤ 1) :
    Real.sqrt ((q : ℚ) : ℝ) ^ 2 + Real.sqrt (1 - ((q : ℚ) : ℝ)) ^ 2 = 1 := by
  have hq0 : (0 : ℝ) ≤ ((q : ℚ) : ℝ) := by exact_mod_cast h0
  have hq1 : ((q : ℚ) : ℝ) ≤ 1 := by exact_mod_cast h1
  rw [Real.sq_sqrt hq0, Real.sq_sqrt (by linarith)]
  ring

/-- C1 (amended): for valid (β₁, β₂, T) the schedule satisfies
alphabar_t 0 = 1 - β₁ (the code starts the cumulative product at α₀, so the
index-0 value is 1 - β₁, not 1), alphabar is non-increasing in t over 0..T,
and √(alphabar t)² + √(1 - alphabar t)² = 1 for every t ≤ T. -/
theorem alphabar_props (beta1 beta2 : ℚ) (T t : ℕ) (h1 : 0 < beta1)
    (h2 : beta1 < beta2) (h3 : beta2 < 1) (hT : 0 < T) (ht : t < T) :
    alphabar_t beta1 beta2 T 0 = 1 - beta1 ∧
    alphabar_t beta1 beta2 T (t + 1) ≤ alphabar_t beta1 beta2 T t ∧
    Real.sqrt ((alphabar_t beta1 beta2 T t : ℚ) : ℝ) ^ 2
      + Real.sqrt (1 - ((alphabar_t beta1 beta2 T t : ℚ) : ℝ)) ^ 2 = 1 ∧
    Real.sqrt ((alphabar_t beta1 beta2 T T : ℚ) : ℝ) ^ 2
      + Real.sqrt (1 - ((alphabar_t beta1 beta2 T T : ℚ) : ℝ)) ^ 2 = 1 := by
  refine ⟨?_, ?_, ?_, ?_⟩
  · unfold alphabar_t
    rw [Finset.prod_range_one]
    unfold alpha_t beta_t
    push_cast
    ring
  · have hstep : alphabar_t beta1 beta2 T (t + 1)
        = alphabar_t beta1 beta2 T t * alpha_t beta1 beta2 T (t + 1) := by
      unfold alphabar_t
      rw [Finset.prod_range_succ]
    rw [hstep]
    have hpos := alphabar_t_pos beta1 beta2 T t h1 h2 h3 hT ht.le
    have halpha := alpha_t_bounds beta1 beta2 T (t + 1) h1 h2 h3 hT ht
    nlinarith [hpos, halpha.1, halpha.2]
  · exact sqrt_sum_of_unit_interval _ (alphabar_t_pos beta1 beta2 T t h1 h2 h3 hT ht.le).le
      (alphabar_t_le_one beta1 beta2 T t h1 h2 h3 hT ht.le)
  · exact sqrt_sum_of_unit_interval _ (alphabar_t_pos beta1 beta2 T T h1 h2 h3 hT le_rfl).le
      (alphabar_t_le_one beta1 beta2 T T h1 h2 h3 hT le_rfl)

/-- C1 counterexample: at β₁ = 1/4, β₂ = 1/2, T = 2 the schedule has
alphabar_t at index 0 equal to 3/4, not 1 as the claim states. -/
theorem alphabar_zero_ne_one : alphabar_t (1 / 4) (1 / 2) 2 0 ≠ 1 := by
  norm_num [alphabar_t, Finset.prod_range_one, alpha_t, beta_t]

/-- C1 witness: the amended theorem instantiated at β₁ = 1/4, β₂ = 1/2,
T = 2, t = 1. -/
theorem alphabar_props_witness :
    alphabar_t (1 / 4) (1 / 2) 2 0 = 1 - 1 / 4 ∧
    alphabar_t (1 / 4) (1 / 2) 2 2 ≤ alphabar_t (1 / 4) (1 / 2) 2 1 ∧
    Real.sqrt ((alphabar_t (1 / 4) (1 / 2) 2 1 : ℚ) : ℝ) ^ 2
      + Real.sqrt (1 - ((alphabar_t (1 / 4) (1 / 2) 2 1 : ℚ) : ℝ)) ^ 2 = 1 ∧
    Real.sqrt ((alphabar_t (1 / 4) (1 / 2) 2 2 : ℚ) : ℝ) ^ 2
      + Real.sqrt (1 - ((alphabar_t (1 / 4) (1 / 2) 2 2 : ℚ) : ℝ)) ^ 2 = 1 :=
  alphabar_props (1 / 4) (1 / 2) 2 1 (by norm_num) (by norm_num) (by norm_num)
    (by norm_num) (by norm_num)

/-- C2 counterexample: the input (β₁, β₂) = (-1, 1/2) has β₁ outside (0, 1),
yet it passes the assert of ddpm_schedules, so the claimed rejection of
β₁ ≤ 0 does not happen. -/
theorem schedule_accepts_nonpositive_beta1 :
    ddpm_schedules_valid (-1) (1 / 2) ∧ ¬ (0 < (-1 : ℚ)) := by
  refine ⟨⟨by norm_num, by norm_num⟩, by norm_num⟩

/-- C2 (amended): ddpm_schedules rejects its input exactly when β₁ ≥ β₂ or
β₂ ≥ 1; the assert checks no lower bound, so β ≤ 0 is not rejected. -/
theorem ddpm_schedules_validation_iff (beta1 beta2 : ℚ) :
    ¬ ddpm_schedules_valid beta1 beta2 ↔ (beta2 ≤ beta1 ∨ 1 ≤ beta2) := by
  unfold ddpm_schedules_valid
  rw [not_and_or, not_lt, not_lt]

/-- C7 (amended): for (β₁, β₂, T) = (1e-4, 0.02, 600) the beta schedule is
strictly increasing over 0..T, and oneover_sqrta = 1/√α agrees with
1/√(1 - 1e-4) within 1e-6 at index 0 (where β equals β₁ exactly). -/
theorem schedule_600_props (t : ℕ) (ht : t < 600) :
    beta_t (1 / 10000) (1 / 50) 600 t < beta_t (1 / 10000) (1 / 50) 600 (t + 1) ∧
    |1 / Real.sqrt ((alpha_t (1 / 10000) (1 / 50) 600 0 : ℚ) : ℝ)
      - 1 / Real.sqrt (1 - 1 / 10000)| < 1e-6 := by
  constructor
  · unfold beta_t
    push_cast
    linarith
  · have ha : (alpha_t (1 / 10000) (1 / 50) 600 0 : ℚ) = 9999 / 10000 := by
      norm_num [alpha_t, beta_t]
    rw [ha]
    rw [show ((9999 / 10000 : ℚ) : ℝ) = 1 - 1 / 10000 by norm_num]
    rw [sub_self, abs_zero]
    norm_num

/-- C7 counterexample: at index 1 the beta value is 1e-4 + 0.0199/600, so
oneover_sqrta differs from 1/√(1 - 1e-4) by more than 1e-6. -/
theorem oneover_sqrta_tolerance_fails :
    1e-6 < |1 / Real.sqrt ((alpha_t (1 / 10000) (1 / 50) 600 1 : ℚ) : ℝ)
      - 1 / Real.sqrt (1 - 1 / 10000)| := by
  have hb : (alpha_t (1 / 10000) (1 / 50) 600 1 : ℚ) = 5999201 / 6000000 := by
    norm_num [alpha_t, beta_t]
  rw [hb]
  rw [show ((5999201 / 6000000 : ℚ) : ℝ) = 5999201 / 6000000 by push_cast; norm_num]
  rw [show (1 - 1 / 10000 : ℝ) = 9999 / 10000 by norm_num]
  set sa := Real.sqrt (9999 / 10000) with hsa
  set sb := Real.sqrt (5999201 / 6000000) with hsb
  have hsa2 : sa ^ 2 = 9999 / 10000 := Real.sq_sqrt (by norm_num)
  have hsb2 : sb ^ 2 = 5999201 / 6000000 := Real.sq_sqrt (by norm_num)
  have hsa0 : 0 < sa := Real.sqrt_pos.mpr (by norm_num)
  have hsb0 : 0 < sb := Real.sqrt_pos.mpr (by norm_num)
  have hsa1 : sa ≤ 1 := by nlinarith [hsa2, hsa0]
  have hsb1 : sb ≤ 1 := by nlinarith [hsb2, hsb0]
  have hlt : sb < sa := by nlinarith [hsa2, hsb2, hsa0, hsb0]
  have hdiff : (sa - sb) * (sa + sb) = 199 / 12000000 * 2 := by nlinarith [hsa2, hsb2]
  have hsum : sa + sb ≤ 2 := by linarith
  have hgap : 199 / 12000000 ≤ sa - sb := by nlinarith [hdiff, hsum, hlt]
  have hprod : sa * sb ≤ 1 := by nlinarith [hsa1, hsb1, hsa0, hsb0]
  have hpos : 0 < 1 / sb - 1 / sa := by
    have h := one_div_lt_one_div_of_lt hsb0 hlt
    linarith
  rw [abs_of_pos hpos]
  have hkey : 1 / sb - 1 / sa = (sa - sb) / (sa * sb) := by
    rw [div_sub_div _ _ hsb0.ne' hsa0.ne']
    ring_nf
  rw [hkey]
  have h2 : sa - sb ≤ (sa - sb) / (sa * sb) := by
    rw [le_div_iff₀ (by positivity)]
    nlinarith [hgap, hprod]
  calc (1e-6 : ℝ) < 199 / 12000000 := by norm_num
    _ ≤ sa - sb := hgap
    _ ≤ (sa - sb) / (sa * sb) := h2

/-- C7 witness: the amended theorem instantiated at t = 0. -/
theorem schedule_600_props_witness :
    (beta_t (1 / 10000) (1 / 50) 600 0 < beta_t (1 / 10000) (1 / 50) 600 (0 + 1) ∧
    |1 / Real.sqrt ((alpha_t (1 / 10000) (1 / 50) 600 0 : ℚ) : ℝ)
      - 1 / Real.sqrt (1 - 1 / 10000)| < 1e-6) :=
  schedule_600_props 0 (by norm_num)

lemma zipWith3_length {α β γ δ : Type} (f : α → β → γ → δ) :
    ∀ (as : List α) (bs : List β) (cs : List γ),
      (zipWith3 f as bs cs).length = min as.length (min bs.length cs.length)
  | [], bs, cs => by simp [zipWith3]
  | a :: as, [], cs => by simp [zipWith3]
  | a :: as, b :: bs, [] => by simp [zipWith3]
  | a :: as, b :: bs, c :: cs => by
      simp only [zipWith3, List.length_cons, zipWith3_length f as bs cs]
      omega

lemma zipWith3_getD {α β γ δ : Type} (f : α → β → γ → δ) (da : α) (db : β)
    (dc : γ) (dd : δ) :
    ∀ (as : List α) (bs : List β) (cs : List γ) (k : ℕ),
      k < as.length → k < bs.length → k < cs.length →
      (zipWith3 f as bs cs).getD k dd
        = f (as.getD k da) (bs.getD k db) (cs.getD k dc)
  | [], _, _, k, ha, _, _ => absurd ha (by simp)
  | _ :: _, [], _, k, _, hb, _ => absurd hb (by simp)
  | _ :: _, _ :: _, [], k, _, _, hc => absurd hc (by simp)
  | a :: as, b :: bs, c :: cs, 0, _, _, _ => rfl
  | a :: as, b :: bs, c :: cs, k + 1, ha, hb, hc => by
      simp only [zipWith3, List.getD_cons_succ]
      exact zipWith3_getD f da db dc dd as bs cs k (by simpa using ha)
        (by simpa using hb) (by simpa using hc)


/-- C3: with the random draws ts and noise fixed, DDPM.forward returns
MSE(noise, net(x_t, t/T)) where the corrupted batch x_t has, at every sample
index k and pixel j, the value sqrtab[ts k] * x₀ + sqrtmab[ts k] * noise. -/
theorem ddpm_forward_spec {I : Type} [Fintype I] (M : DDPM I)
    (x noise : List (I → ℚ)) (ts : List ℕ) (n k : ℕ) (j : I)
    (hx : x.length = n) (hnoise : noise.length = n) (hts : ts.length = n)
    (hk : k < n) :
    ddpm_forward M x noise ts
      = mseLossList noise (M.nn_model (corrupted M x noise ts)
          (ts.map (fun t => (t : ℚ) / (M.n_T : ℚ)))) ∧
    (corrupted M x noise ts).length = n ∧
    (corrupted M x noise ts).getD k zeroImage j
      = M.sqrtab (ts.getD k 0) * x.getD k zeroImage j
        + M.sqrtmab (ts.getD k 0) * noise.getD k zeroImage j := by
  refine ⟨rfl, ?_, ?_⟩
  · unfold corrupted
    rw [zipWith3_length]
    simp [hx, hnoise, hts]
  · unfold corrupted
    rw [zipWith3_getD _ zeroImage zeroImage 0 zeroImage x noise ts k
      (by omega) (by omega) (by omega)]

/-- C3 witness: the theorem instantiated on a singleton batch with the
identity network of M0. -/
theorem ddpm_forward_spec_witness :
    ddpm_forward M0 [zeroImage] [zeroImage] [1]
      = mseLossList [zeroImage] (M0.nn_model (corrupted M0 [zeroImage] [zeroImage] [1])
          ([1].map (fun t => (t : ℚ) / (M0.n_T : ℚ)))) ∧
    (corrupted M0 [zeroImage] [zeroImage] [1]).length = 1 ∧
    (corrupted M0 [zeroImage] [zeroImage] [1]).getD 0 zeroImage ()
      = M0.sqrtab ([1].getD 0 0) * List.getD [zeroImage] 0 zeroImage ()
        + M0.sqrtmab ([1].getD 0 0) * List.getD [zeroImage] 0 zeroImage () :=
  ddpm_forward_spec M0 [zeroImage] [zeroImage] [1] 1 0 () rfl rfl rfl Nat.one_pos

lemma ddpm_loop_drop_prob {I : Type} (M : DDPM I) (d : ℚ) (n : ℕ)
    (z : ℕ → List (I → ℚ)) :
    ∀ (l : List ℕ) (x : List (I → ℚ)),
      ddpm_loop { M with drop_prob := d } n z l x = ddpm_loop M n z l x
  | [], _ => rfl
  | i :: rest, x => by
      simp only [ddpm_loop]
      rw [show ddpm_step_full { M with drop_prob := d } n z i x
          = ddpm_step_full M n z i x from rfl]
      rw [ddpm_loop_drop_prob M d n z rest (ddpm_step_full M n z i x)]

/-- C9: drop_prob noninterference: replacing the stored drop_prob by any
other value, with all other state and random draws equal, leaves the
training loss and the sampling result (final batch and snapshots)
unchanged. -/
theorem drop_prob_noninterference {I : Type} [Fintype I] (M : DDPM I) (d : ℚ)
    (x noise : List (I → ℚ)) (ts : List ℕ) (n : ℕ) (x0 : List (I → ℚ))
    (z : ℕ → List (I → ℚ)) :
    ddpm_forward { M with drop_prob := d } x noise ts = ddpm_forward M x noise ts ∧
    ddpm_sample { M with drop_prob := d } n x0 z = ddpm_sample M n x0 z :=
  ⟨rfl, ddpm_loop_drop_prob M d n z (desc_range M.n_T) x0⟩

/-- C4: the sampling loop visits timesteps T, T-1, ..., 1 (desc_range), and
at each timestep i ≥ 1 it uses z = 0 exactly when i = 1, queries the network
at (x doubled, i/T), and updates x to
oneover_sqrta[i] * (x - eps * mab_over_sqrtmab[i]) + sqrt_beta_t[i] * z. -/
theorem ddpm_sample_step_spec {I : Type} (M : DDPM I) (n : ℕ)
    (z : ℕ → List (I → ℚ)) (i : ℕ) (rest : List ℕ) (x : List (I → ℚ))
    (T k : ℕ) (hi : 1 ≤ i) (hk : k < T) :
    (desc_range T).length = T ∧
    (desc_range T).getD k 0 = T - k ∧
    ddpm_loop M n z (i :: rest) x =
      (let zeff := if i = 1 then List.replicate n zeroImage else z i
       let eps := (M.nn_model (x ++ x)
         (List.replicate (2 * n) ((i : ℚ) / (M.n_T : ℚ)))).take n
       let x1 := zipWith3
         (fun a e w => fun j =>
           M.oneover_sqrta i * (a j - e j * M.mab_over_sqrtmab i)
             + M.sqrt_beta_t i * w j)
         ((x ++ x).take n) eps zeff
       let r := ddpm_loop M n z rest x1
       (r.1, (if snapshot_taken M.n_T i then [x1] else []) ++ r.2)) := by
  refine ⟨by simp [desc_range], ?_, ?_⟩
  · unfold desc_range
    have hk1 : k < ((List.range T).reverse.map (· + 1)).length := by simp [hk]
    rw [List.getD_eq_getElem _ _ hk1]
    simp only [List.getElem_map, List.getElem_reverse, List.getElem_range,
      List.length_reverse, List.length_range]
    omega
  · by_cases h1 : i = 1
    · subst h1
      simp [ddpm_loop, ddpm_step_full, ddpm_step]
    · have h2 : 1 < i := lt_of_le_of_ne hi (Ne.symm h1)
      simp [ddpm_loop, ddpm_step_full, ddpm_step, h1, h2]

/-- C4 witness: the theorem instantiated at timestep i = 1 on a singleton
batch with M0, and at T = 2, k = 0 for the iteration order. -/
theorem ddpm_sample_step_spec_witness :
    (desc_range 2).length = 2 ∧
    (desc_range 2).getD 0 0 = 2 - 0 ∧
    ddpm_loop M0 1 (fun _ => [zeroImage]) (1 :: []) [zeroImage] =
      (let zeff := if (1 : ℕ) = 1 then List.replicate 1 zeroImage
        else (fun _ => [zeroImage]) 1
       let eps := (M0.nn_model ([zeroImage] ++ [zeroImage])
         (List.replicate (2 * 1) (((1 : ℕ) : ℚ) / (M0.n_T : ℚ)))).take 1
       let x1 := zipWith3
         (fun a e w => fun j =>
           M0.oneover_sqrta 1 * (a j - e j * M0.mab_over_sqrtmab 1)
             + M0.sqrt_beta_t 1 * w j)
         (([zeroImage] ++ [zeroImage]).take 1) eps zeff
       let r := ddpm_loop M0 1 (fun _ => [zeroImage]) [] x1
       (r.1, (if snapshot_taken M0.n_T 1 then [x1] else []) ++ r.2)) :=
  ddpm_sample_step_spec M0 1 (fun _ => [zeroImage]) 1 [] [zeroImage] 2 0 le_rfl
    (by norm_num)

lemma ddpm_loop_fst {I : Type} (M : DDPM I) (n : ℕ) (z : ℕ → List (I → ℚ)) :
    ∀ (l : List ℕ) (x : List (I → ℚ)),
      (ddpm_loop M n z l x).1 = List.foldl (fun s i => ddpm_step_full M n z i s) x l
  | [], _ => rfl
  | i :: rest, x => by
      simp only [ddpm_loop, List.foldl_cons]
      exact ddpm_loop_fst M n z rest (ddpm_step_full M n z i x)

lemma ddpm_loop_snd {I : Type} (M : DDPM I) (n : ℕ) (z : ℕ → List (I → ℚ)) :
    ∀ (l : List ℕ) (x : List (I → ℚ)),
      (ddpm_loop M n z l x).2
        = ((loop_states M n z l x).filter
            (fun p => snapshot_taken M.n_T p.1)).map Prod.snd
  | [], _ => rfl
  | i :: rest, x => by
      simp only [ddpm_loop, loop_states, List.filter_cons]
      by_cases h : snapshot_taken M.n_T i
      · simp only [h, if_true, List.map_cons, List.singleton_append]
        rw [ddpm_loop_snd M n z rest (ddpm_step_full M n z i x)]
      · simp only [h, if_false, Bool.false_eq_true, List.nil_append]
        rw [ddpm_loop_snd M n z rest (ddpm_step_full M n z i x)]

/-- C6 (amended): the sampling loop returns the fold of the update over the
visited timesteps together with the ordered list of the post-update states
at exactly the timesteps i with i % 20 = 0, i = T, or i < 8 — that is, every
20th step, the first step, and the final SEVEN steps (timesteps 7..1), not
the final eight. -/
theorem ddpm_sample_snapshot_cadence {I : Type} (M : DDPM I) (n : ℕ)
    (z : ℕ → List (I → ℚ)) (l : List ℕ) (x : List (I → ℚ)) (i : ℕ) :
    (ddpm_loop M n z l x).1 = List.foldl (fun s i => ddpm_step_full M n z i s) x l ∧
    (ddpm_loop M n z l x).2
      = ((loop_states M n z l x).filter
          (fun p => snapshot_taken M.n_T p.1)).map Prod.snd ∧
    (snapshot_taken M.n_T i = true ↔ (i % 20 = 0 ∨ i = M.n_T ∨ i < 8)) := by
  refine ⟨ddpm_loop_fst M n z l x, ddpm_loop_snd M n z l x, ?_⟩
  simp only [snapshot_taken, Bool.or_eq_true, beq_iff_eq, decide_eq_true_eq]
  tauto

/-- C6 counterexample: with n_T = 600 (M0), timestep 8 lies among the final
8 steps of the loop, yet processing it records no snapshot: the snapshot
condition is false at i = 8. -/
theorem snapshot_misses_step8 :
    (ddpm_loop M0 1 (fun _ => [zeroImage]) [8] [zeroImage]).2 = []
      ∧ snapshot_taken 600 8 = false := by
  exact ⟨rfl, rfl⟩

lemma ddpm_step_full_length {I : Type} (M : DDPM I) (n : ℕ)
    (z : ℕ → List (I → ℚ)) (i : ℕ) (x : List (I → ℚ))
    (hnet : ∀ xs ts, (M.nn_model xs ts).length = xs.length)
    (hz : ∀ j, (z j).length = n) (hx : x.length = n) :
    (ddpm_step_full M n z i x).length = n := by
  unfold ddpm_step_full ddpm_step
  rw [zipWith3_length]
  simp only [List.length_take, List.length_append, hnet, hx]
  by_cases h : 1 < i
  · simp [h, hz]
  · simp [h]

lemma ddpm_loop_lengths {I : Type} (M : DDPM I) (n : ℕ)
    (z : ℕ → List (I → ℚ))
    (hnet : ∀ xs ts, (M.nn_model xs ts).length = xs.length)
    (hz : ∀ j, (z j).length = n) :
    ∀ (l : List ℕ) (x : List (I → ℚ)), x.length = n →
      (ddpm_loop M n z l x).1.length = n ∧
      ∀ s ∈ (ddpm_loop M n z l x).2, s.length = n
  | [], x, hx => ⟨hx, by simp [ddpm_loop]⟩
  | i :: rest, x, hx => by
      have hx1 : (ddpm_step_full M n z i x).length = n :=
        ddpm_step_full_length M n z i x hnet hz hx
      obtain ⟨h1, h2⟩ := ddpm_loop_lengths M n z hnet hz rest
        (ddpm_step_full M n z i x) hx1
      refine ⟨h1, ?_⟩
      intro s hs
      simp only [ddpm_loop, List.mem_append] at hs
      rcases hs with hs | hs
      · rcases Bool.eq_false_or_eq_true (snapshot_taken M.n_T i) with hb | hb
        · simp only [hb, if_true, List.mem_singleton] at hs
          subst hs
          exact hx1
        · simp [hb] at hs
      · exact h2 s hs

/-- C10: although the loop doubles the working batch before each network
query, it keeps only the first n_sample rows, so for a length-preserving
network the returned final batch has exactly n_sample rows and every
recorded snapshot has exactly n_sample rows (each row an image of the fixed
pixel type). -/
theorem ddpm_sample_batch_size {I : Type} (M : DDPM I) (n : ℕ)
    (x0 : List (I → ℚ)) (z : ℕ → List (I → ℚ)) (hn : 1 ≤ n)
    (hnet : ∀ xs ts, (M.nn_model xs ts).length = xs.length)
    (hz : ∀ j, (z j).length = n) (hx0 : x0.length = n) :
    (ddpm_sample M n x0 z).1.length = n ∧
    (ddpm_sample M n x0 z).2.all (fun s => s.length == n) = true := by
  obtain ⟨h1, h2⟩ := ddpm_loop_lengths M n z hnet hz (desc_range M.n_T) x0 hx0
  refine ⟨h1, ?_⟩
  rw [List.all_eq_true]
  intro s hs
  exact beq_iff_eq.mpr (h2 s hs)

/-- C10 witness: the theorem instantiated on a singleton batch with the
identity network of M0. -/
theorem ddpm_sample_batch_size_witness :
    (ddpm_sample M0 1 [zeroImage] (fun _ => [zeroImage])).1.length = 1 ∧
    (ddpm_sample M0 1 [zeroImage] (fun _ => [zeroImage])).2.all
      (fun s => s.length == 1) = true :=
  ddpm_sample_batch_size M0 1 [zeroImage] (fun _ => [zeroImage]) le_rfl
    (fun _ _ => rfl) (fun _ => rfl) rfl
